import Mathlib

/-!
Shallow embedding of the onset-detection pipeline in
src/debug_onset_detection.py:

* the 16-bit branch of read_wav (signed little-endian decode and
  normalization by 32768.0),
* calculate_energy_envelope (windowed RMS energy),
* detect_onsets (fraction-of-peak threshold plus refractory scan),
* the top-N peak report from main (stable sort by energy descending).

Floating-point arithmetic is embedded as exact ordered-field arithmetic:
the detector is stated over an arbitrary LinearOrderedField (instantiated
at ℚ for executable witnesses and at ℝ where the envelope's square root
is involved).
-/

/-- Python int() truncation toward zero, on a rational. -/
def pyInt (q : ℚ) : ℤ := if 0 ≤ q then ⌊q⌋ else ⌈q⌉

/-- Python range(0, n, w) for a positive step w: the indices
0, w, 2·w, ... strictly below n, of which there are ⌈n / w⌉. -/
def pyRangeStep (n w : ℕ) : List ℕ :=
  (List.range ((n + w - 1) / w)).map (fun k => k * w)

/-- The error raised when the computed window size is zero: Python's
range raises ValueError on a zero step before any iteration runs; the
spec names this condition InvalidWindowError. -/
inductive InvalidWindowError where
  | rangeStepZero
deriving DecidableEq

/-- RMS of one window chunk: math.sqrt(sum(s*s for s in chunk) / len(chunk)). -/
noncomputable def rms (chunk : List ℝ) : ℝ :=
  Real.sqrt ((chunk.map (fun s => s * s)).sum / chunk.length)

/-- calculate_energy_envelope from the source: window_samples =
int(sample_rate * window_ms / 1000.0); loop i over range(0, len(samples),
window_samples); chunk = samples[i:i+window_samples]; emit the point
(i / sample_rate, rms chunk).  A zero step makes Python's range raise
(modelled as the error case); a negative step yields an empty range.
For a positive step every visited chunk is nonempty, so the source's
break-on-empty-chunk guard never fires. -/
noncomputable def calculate_energy_envelope (samples : List ℝ) (sample_rate : ℕ)
    (window_ms : ℚ) : Except InvalidWindowError (List (ℝ × ℝ)) :=
  let window_samples := pyInt ((sample_rate : ℚ) * window_ms / 1000)
  if window_samples = 0 then .error .rangeStepZero
  else if window_samples < 0 then .ok []
  else .ok ((pyRangeStep samples.length window_samples.toNat).map
    (fun (i : ℕ) => ((i : ℝ) / (sample_rate : ℝ), rms ((samples.drop i).take window_samples.toNat))))

/-- max(e[1] for e in envelope): Python's max as a left fold starting
from the first energy.  The empty case is never reached by
detect_onsets, which returns early on an empty envelope. -/
def maxEnergy {α : Type} [LinearOrderedField α] (envelope : List (α × α)) : α :=
  match envelope with
  | [] => 0
  | p :: rest => (rest.map Prod.snd).foldl max p.2

/-- The scan loop of detect_onsets: accept (time, energy) when
energy > threshold and time - last_onset_time > min_distance_s, in which
case the point is appended and last_onset_time becomes time. -/
def detectLoop {α : Type} [LinearOrderedField α] (threshold min_distance_s : α) :
    α → List (α × α) → List (α × α)
  | _, [] => []
  | last_onset_time, (time, energy) :: rest =>
    if energy > threshold ∧ time - last_onset_time > min_distance_s then
      (time, energy) :: detectLoop threshold min_distance_s time rest
    else
      detectLoop threshold min_distance_s last_onset_time rest

/-- detect_onsets from the source: empty envelope returns []; otherwise
threshold = max_energy * threshold_factor, min_distance_s =
min_distance_ms / 1000, and the scan starts from last_onset_time = -1.0. -/
def detect_onsets {α : Type} [LinearOrderedField α] (envelope : List (α × α))
    (threshold_factor min_distance_ms : α) : List (α × α) :=
  match envelope with
  | [] => []
  | _ =>
    detectLoop (maxEnergy envelope * threshold_factor) (min_distance_ms / 1000)
      (-1) envelope

/-- Spec-side acceptance step (spec section 4.3, quoted by claim C1): a scanned
point qualifies iff its energy strictly exceeds the absolute threshold AND its
distance to the last accepted onset time strictly exceeds minDistanceS; on
acceptance it is appended to the output and becomes the new last onset time. -/
def acceptStep {α : Type} [LinearOrderedField α] (absoluteThreshold minDistanceS : α)
    (st : List (α × α) × α) (p : α × α) : List (α × α) × α :=
  if p.2 > absoluteThreshold ∧ p.1 - st.2 > minDistanceS then (st.1 ++ [p], p.1) else st

/-- Spec-side detector, written from the spec's words: fold acceptStep over the
envelope in scan order, starting from an empty output and the sentinel last
onset time -1.0, with absoluteThreshold = maxEnergy * thresholdFactor. -/
def detect_onsets_spec {α : Type} [LinearOrderedField α] (envelope : List (α × α))
    (threshold_factor min_distance_ms : α) : List (α × α) :=
  match envelope with
  | [] => []
  | _ =>
    (envelope.foldl
      (acceptStep (maxEnergy envelope * threshold_factor) (min_distance_ms / 1000))
      ([], -1)).1

/-- One signed 16-bit little-endian value from two bytes (struct.unpack format h). -/
def s16_le (b0 b1 : ℕ) : ℤ :=
  if b0 + 256 * b1 < 32768 then (b0 + 256 * b1 : ℤ) else (b0 + 256 * b1 : ℤ) - 65536

/-- The byte stream split into consecutive 2-byte groups, each decoded as a
signed 16-bit little-endian integer (read_wav's 16-bit branch before
normalization). -/
def decode_s16le : List ℕ → List ℤ
  | b0 :: b1 :: rest => s16_le b0 b1 :: decode_s16le rest
  | _ => []

/-- read_wav's 16-bit branch: each decoded integer divided by 32768.0. -/
def read_wav_samples16 (bytes : List ℕ) : List ℚ :=
  (decode_s16le bytes).map (fun (v : ℤ) => (v : ℚ) / 32768)

/-- Time-only greedy refractory selection: keep a time when it is more than g
after the previously kept time.  detect_onsets restricted to the candidate
times (the points above threshold) computes exactly this. -/
def gsel {α : Type} [LinearOrderedField α] (g : α) : α → List α → List α
  | _, [] => []
  | last, t :: ts => if t - last > g then t :: gsel g t ts else gsel g last ts

/-- The top-N peak report of main: sorted(envelope, key=energy, reverse=True)
truncated to n entries.  Python's sort is stable; insertion sort with the
relation "left energy at least right energy" implements the same stable
descending order. -/
def topPeaks (envelope : List (ℚ × ℚ)) (n : ℕ) : List (ℚ × ℚ) :=
  (envelope.insertionSort (fun a b => b.2 ≤ a.2)).take n

/-! ### Helper lemmas -/

theorem detectLoop_sublist {α : Type} [LinearOrderedField α] (thr minS : α) :
    ∀ (last : α) (env : List (α × α)), List.Sublist (detectLoop thr minS last env) env
  | _, [] => List.Sublist.refl []
  | last, (t, e) :: rest => by
    unfold detectLoop
    split_ifs with h
    · exact (detectLoop_sublist thr minS t rest).cons₂ (t, e)
    · exact (detectLoop_sublist thr minS last rest).cons (t, e)

theorem foldl_acceptStep_eq {α : Type} [LinearOrderedField α] (thr minS : α) :
    ∀ (env : List (α × α)) (acc : List (α × α)) (last : α),
      (env.foldl (acceptStep thr minS) (acc, last)).1 = acc ++ detectLoop thr minS last env
  | [], acc, last => by simp [detectLoop]
  | (t, e) :: rest, acc, last => by
    simp only [List.foldl_cons, detectLoop, acceptStep]
    split_ifs with hc
    · rw [foldl_acceptStep_eq thr minS rest (acc ++ [(t, e)]) t]
      simp
    · exact foldl_acceptStep_eq thr minS rest acc last

/-! ### Claim theorems -/

/-- C1: detect_onsets accepts a scanned point (t, e) iff e strictly exceeds the
absolute threshold and t minus the last accepted onset time strictly exceeds
minDistanceS; accepted points are appended and update the last onset time
(refinement of the spec-side fold); in particular a point whose energy equals
the threshold exactly, or whose distance from the previous accepted onset
equals minDistanceS exactly, is not accepted. -/
theorem detect_onsets_accepts_iff_spec :
    ∀ (env : List (ℚ × ℚ)) (tf md : ℚ),
      detect_onsets env tf md = detect_onsets_spec env tf md ∧
      (∀ (thr minS last t : ℚ) (rest : List (ℚ × ℚ)),
        detectLoop thr minS last ((t, thr) :: rest) = detectLoop thr minS last rest) ∧
      (∀ (thr minS last e : ℚ) (rest : List (ℚ × ℚ)),
        detectLoop thr minS last ((last + minS, e) :: rest) =
          detectLoop thr minS last rest) := by
  intro env tf md
  refine ⟨?_, ?_, ?_⟩
  · match env with
    | [] => rfl
    | p :: rest =>
      show detectLoop (maxEnergy (p :: rest) * tf) (md / 1000) (-1) (p :: rest) =
        ((p :: rest).foldl
          (acceptStep (maxEnergy (p :: rest) * tf) (md / 1000)) ([], -1)).1
      rw [foldl_acceptStep_eq]
      simp
  · intro thr minS last t rest
    simp [detectLoop, lt_irrefl]
  · intro thr minS last e rest
    simp [detectLoop]

/-- C10: detect_onsets is a total function of its inputs: for every envelope
and every rational threshold factor and minimum distance (validated or not) it
returns a list, always a sublist of the envelope, and on the empty envelope it
returns the empty list by the early-return branch, never reaching the maximum. -/
theorem detect_onsets_total :
    ∀ (tf md : ℚ) (env : List (ℚ × ℚ)),
      detect_onsets ([] : List (ℚ × ℚ)) tf md = [] ∧
        List.Sublist (detect_onsets env tf md) env := by
  intro tf md env
  refine ⟨rfl, ?_⟩
  match env with
  | [] => exact List.Sublist.refl []
  | p :: rest => exact detectLoop_sublist _ _ _ _

/-- C7: whenever the computed window size floor(sampleRate * windowMs / 1000)
is zero, calculate_energy_envelope fails fast with the invalid-window error
(Python's range raises ValueError on a zero step) before producing any
envelope point; being a total function, it neither loops nor divides by zero. -/
theorem calculate_energy_envelope_window_zero (samples : List ℝ) (sample_rate : ℕ)
    (window_ms : ℚ) (h : ⌊(sample_rate : ℚ) * window_ms / 1000⌋ = 0) :
    calculate_energy_envelope samples sample_rate window_ms =
      .error .rangeStepZero := by
  have hq : 0 ≤ (sample_rate : ℚ) * window_ms / 1000 := by
    by_contra hneg
    push_neg at hneg
    have : ⌊(sample_rate : ℚ) * window_ms / 1000⌋ < 0 := Int.floor_lt.mpr (by simpa using hneg)
    omega
  simp [calculate_energy_envelope, pyInt, hq, h]

/-- Witness for C7 at sampleRate 1, windowMs 1/2, empty samples. -/
theorem calculate_energy_envelope_window_zero_witness :
    ⌊((1 : ℕ) : ℚ) * (1 / 2) / 1000⌋ = 0 ∧
      calculate_energy_envelope [] 1 (1 / 2) = .error .rangeStepZero :=
  ⟨by norm_num, calculate_energy_envelope_window_zero [] 1 (1 / 2) (by norm_num)⟩

theorem decode_s16le_bounds : ∀ (bytes : List ℕ), (∀ b ∈ bytes, b < 256) →
    ∀ v ∈ decode_s16le bytes, -32768 ≤ v ∧ v ≤ 32767
  | [], _, v, hv => by simp [decode_s16le] at hv
  | [b], _, v, hv => by simp [decode_s16le] at hv
  | b0 :: b1 :: rest, hb, v, hv => by
    simp only [decode_s16le, List.mem_cons] at hv
    rcases hv with rfl | hv
    · have h0 : b0 < 256 := hb b0 (by simp)
      have h1 : b1 < 256 := hb b1 (by simp)
      unfold s16_le
      split_ifs with h <;> omega
    · exact decode_s16le_bounds rest (fun b hbm => hb b (by simp [hbm])) v hv

/-- C4 counterexample: the byte pair 0x00 0x80 decodes to the sample -1.0
exactly, so a 16-bit decoded sample is not always strictly greater than -1.0
as the claim states. -/
theorem read_wav_samples16_attains_neg_one :
    read_wav_samples16 [0, 128] = [-1] ∧ ¬ (-1 : ℚ) < (-1 : ℚ) := by
  refine ⟨?_, lt_irrefl _⟩
  norm_num [read_wav_samples16, decode_s16le, s16_le]

/-- C4 (amended): each 2-byte group is read as a signed 16-bit little-endian
integer and divided by 32768.0, and every resulting sample lies in the
half-open range [-1.0, 1.0): at least -1.0 (attained at the integer -32768)
and strictly below 1.0. -/
theorem read_wav_samples16_range (bytes : List ℕ) (hb : ∀ b ∈ bytes, b < 256) :
    ∀ s ∈ read_wav_samples16 bytes, -1 ≤ s ∧ s < 1 := by
  intro s hs
  unfold read_wav_samples16 at hs
  obtain ⟨v, hv, rfl⟩ := List.mem_map.mp hs
  obtain ⟨hlo, hhi⟩ := decode_s16le_bounds bytes hb v hv
  constructor
  · rw [le_div_iff₀ (by norm_num : (0:ℚ) < 32768)]
    have hc : ((-32768 : ℤ) : ℚ) ≤ (v : ℚ) := Int.cast_le.mpr hlo
    push_cast at hc
    linarith
  · rw [div_lt_iff₀ (by norm_num : (0:ℚ) < 32768)]
    have hc : (v : ℚ) ≤ ((32767 : ℤ) : ℚ) := Int.cast_le.mpr hhi
    push_cast at hc
    linarith

/-- Witness for C4 at the concrete byte buffer 0x00 0x80. -/
theorem read_wav_samples16_range_witness :
    (∀ b ∈ [0, 128], b < 256) ∧
      ∀ s ∈ read_wav_samples16 [0, 128], -1 ≤ s ∧ s < 1 :=
  ⟨by decide, read_wav_samples16_range [0, 128] (by decide)⟩

theorem detectLoop_chain {α : Type} [LinearOrderedField α] (thr minS : α) (hS : 0 ≤ minS) :
    ∀ (last : α) (env : List (α × α)),
      List.Chain' (fun a b => b.1 - a.1 > minS) (detectLoop thr minS last env) ∧
        ∀ p ∈ detectLoop thr minS last env, p.1 - last > minS
  | _, [] => ⟨List.chain'_nil, by simp [detectLoop]⟩
  | last, (t, e) :: rest => by
    unfold detectLoop
    split_ifs with h
    · obtain ⟨ih1, ih2⟩ := detectLoop_chain thr minS hS t rest
      refine ⟨?_, ?_⟩
      · rw [List.chain'_cons']
        exact ⟨fun y hy => ih2 y (List.mem_of_mem_head? hy), ih1⟩
      · intro p hp
        rcases List.mem_cons.mp hp with rfl | hp
        · exact h.2
        · have h1 := ih2 p hp
          have h2 := h.2
          simp only [gt_iff_lt] at h1 h2 ⊢
          linarith
    · exact detectLoop_chain thr minS hS last rest

theorem detect_onsets_ne_nil {α : Type} [LinearOrderedField α] (env : List (α × α))
    (tf md : α) (h : env ≠ []) :
    detect_onsets env tf md =
      detectLoop (maxEnergy env * tf) (md / 1000) (-1) env := by
  match env with
  | [] => exact absurd rfl h
  | p :: rest => rfl

/-- C6: for every envelope and every nonnegative minimum distance, consecutive
events output by detect_onsets have timestamps differing by strictly more than
minDistanceS = min_distance_ms / 1000, and the output is in strictly ascending
timestamp order. -/
theorem detect_onsets_refractory (env : List (ℚ × ℚ)) (tf md : ℚ) (hmd : 0 ≤ md) :
    List.Chain' (fun a b => b.1 - a.1 > md / 1000) (detect_onsets env tf md) ∧
      List.Pairwise (fun a b => a.1 < b.1) (detect_onsets env tf md) := by
  have hS : (0 : ℚ) ≤ md / 1000 := by positivity
  have hmain : List.Chain' (fun a b : ℚ × ℚ => b.1 - a.1 > md / 1000)
      (detect_onsets env tf md) := by
    match env with
    | [] => simp [detect_onsets]
    | p :: rest => exact (detectLoop_chain _ _ hS _ _).1
  refine ⟨hmain, ?_⟩
  have hlt : List.Chain' (fun a b : ℚ × ℚ => a.1 < b.1) (detect_onsets env tf md) := by
    refine hmain.imp ?_
    intro a b hab
    simp only [gt_iff_lt] at hab
    linarith
  haveI : IsTrans (ℚ × ℚ) (fun a b : ℚ × ℚ => a.1 < b.1) :=
    ⟨fun _ _ _ h1 h2 => lt_trans h1 h2⟩
  exact List.chain'_iff_pairwise.mp hlt

/-- Witness for C6 on a concrete two-point envelope with defaults. -/
theorem detect_onsets_refractory_witness :
    (0 : ℚ) ≤ 60 ∧
      (List.Chain' (fun a b => b.1 - a.1 > (60 : ℚ) / 1000)
          (detect_onsets [((0 : ℚ), 1), (1, 2)] (1 / 2) 60) ∧
        List.Pairwise (fun a b => a.1 < b.1)
          (detect_onsets [((0 : ℚ), 1), (1, 2)] (1 / 2) 60)) :=
  ⟨by norm_num, detect_onsets_refractory [((0 : ℚ), 1), (1, 2)] (1 / 2) 60 (by norm_num)⟩

theorem detectLoop_cons {α : Type} [LinearOrderedField α] (thr minS last t e : α)
    (rest : List (α × α)) :
    detectLoop thr minS last ((t, e) :: rest) =
      if e > thr ∧ t - last > minS then (t, e) :: detectLoop thr minS t rest
      else detectLoop thr minS last rest := rfl

theorem detectLoop_no_candidates {α : Type} [LinearOrderedField α] (thr minS : α) :
    ∀ (last : α) (pre rest : List (α × α)), (∀ q ∈ pre, ¬ thr < q.2) →
      detectLoop thr minS last (pre ++ rest) = detectLoop thr minS last rest
  | _, [], _, _ => rfl
  | last, (t, e) :: pre, rest, h => by
    have he : ¬ thr < e := h (t, e) (by simp)
    rw [List.cons_append, detectLoop_cons, if_neg (fun hcon => he hcon.1)]
    exact detectLoop_no_candidates thr minS last pre rest (fun q hq => h q (by simp [hq]))

/-- C3 counterexample: with min_distance_ms = 5000 (nonnegative), the single
envelope point (0, 1) strictly exceeds the absolute threshold yet detect_onsets
emits nothing, because 0 - (-1) = 1 is not greater than 5 seconds: the first
candidate is not always emitted. -/
theorem first_candidate_not_emitted :
    detect_onsets [((0 : ℚ), 1)] (1 / 2) 5000 = [] ∧
      maxEnergy [((0 : ℚ), 1)] * (1 / 2) < 1 ∧ (0 : ℚ) ≤ 5000 := by
  refine ⟨?_, ?_, by norm_num⟩
  · norm_num [detect_onsets, detectLoop, maxEnergy]
  · norm_num [maxEnergy]

/-- C3 (amended): for 0 ≤ min_distance_ms < 1000 and an envelope with
nonnegative timestamps, the first point in scan order whose energy strictly
exceeds the absolute threshold also satisfies the spacing condition against
the sentinel last-onset time -1.0 (t + 1 ≥ 1 > minDistanceS) and is emitted
as the first onset; for min_distance_ms ≥ 1000 this can fail. -/
theorem first_candidate_emitted (pre post : List (ℚ × ℚ)) (t e tf md : ℚ)
    (htime : ∀ p ∈ pre ++ (t, e) :: post, 0 ≤ p.1)
    (hmd0 : 0 ≤ md) (hmd1 : md < 1000)
    (hpre : ∀ q ∈ pre, ¬ maxEnergy (pre ++ (t, e) :: post) * tf < q.2)
    (he : maxEnergy (pre ++ (t, e) :: post) * tf < e) :
    (detect_onsets (pre ++ (t, e) :: post) tf md).head? = some (t, e) := by
  have henv : pre ++ (t, e) :: post ≠ [] := by simp
  rw [detect_onsets_ne_nil _ _ _ henv,
    detectLoop_no_candidates _ _ _ _ _ hpre]
  have ht : (0 : ℚ) ≤ t := htime (t, e) (by simp)
  have hcond : e > maxEnergy (pre ++ (t, e) :: post) * tf ∧
      t - (-1) > md / 1000 := by
    refine ⟨he, ?_⟩
    have h1 : md / 1000 < 1 := (div_lt_one (by norm_num)).mpr hmd1
    simp only [gt_iff_lt]
    linarith
  rw [detectLoop_cons, if_pos hcond]
  rfl

/-- Witness for C3 on the one-point envelope [(0, 1)] with defaults. -/
theorem first_candidate_emitted_witness :
    maxEnergy [((0 : ℚ), 1)] * (1 / 2) < 1 ∧
      (detect_onsets [((0 : ℚ), 1)] (1 / 2) 60).head? = some (0, 1) := by
  constructor
  · norm_num [maxEnergy]
  · exact first_candidate_emitted [] [] 0 1 (1 / 2) 60
      (by intro p hp; simp at hp; simp [hp]) (by norm_num) (by norm_num)
      (by intro q hq; simp at hq) (by norm_num [maxEnergy])

theorem rms_replicate_zero (m : ℕ) : rms (List.replicate m (0 : ℝ)) = 0 := by
  unfold rms
  rw [List.map_replicate]
  norm_num [List.sum_replicate]

theorem foldl_max_zero {α : Type} [LinearOrderedField α] :
    ∀ (l : List α), (∀ x ∈ l, x = 0) → List.foldl max (0 : α) l = 0
  | [], _ => rfl
  | x :: l, h => by
    have hx : x = 0 := h x (by simp)
    rw [List.foldl_cons, hx, max_self]
    exact foldl_max_zero l (fun y hy => h y (by simp [hy]))

theorem detectLoop_zero_energy {α : Type} [LinearOrderedField α] (minS : α) :
    ∀ (last : α) (env : List (α × α)), (∀ p ∈ env, p.2 = 0) →
      detectLoop 0 minS last env = []
  | _, [], _ => rfl
  | last, (t, e) :: rest, h => by
    have he : e = 0 := h (t, e) (by simp)
    rw [detectLoop_cons, if_neg]
    · exact detectLoop_zero_energy minS last rest (fun p hp => h p (by simp [hp]))
    · intro hcon
      rw [he] at hcon
      exact lt_irrefl 0 hcon.1

theorem detect_onsets_zero_energy {α : Type} [LinearOrderedField α]
    (env : List (α × α)) (tf md : α) (h : ∀ p ∈ env, p.2 = 0) :
    detect_onsets env tf md = [] := by
  match env with
  | [] => rfl
  | p :: rest =>
    have hmax : maxEnergy (p :: rest) = 0 := by
      show (rest.map Prod.snd).foldl max p.2 = 0
      rw [h p (by simp)]
      exact foldl_max_zero _ (fun x hx => by
        obtain ⟨q, hq, rfl⟩ := List.mem_map.mp hx
        exact h q (by simp [hq]))
    rw [detect_onsets_ne_nil _ _ _ (by simp), hmax, zero_mul]
    exact detectLoop_zero_energy _ _ _ h

theorem calculate_energy_envelope_zeros :
    calculate_energy_envelope (List.replicate 1000 (0 : ℝ)) 1000 5 =
      .ok ((pyRangeStep 1000 5).map (fun (i : ℕ) => ((i : ℝ) / 1000, 0))) := by
  have hw : pyInt (((1000 : ℕ) : ℚ) * 5 / 1000) = 5 := by norm_num [pyInt]
  simp only [calculate_energy_envelope, hw, List.length_replicate]
  norm_num
  simp [rms_replicate_zero]

/-- C5 counterexample: on 1000 zero samples at sample rate 1000 with
windowMs = 5 the envelope produced by calculate_energy_envelope has 200
points (one per 5-sample window), not exactly 2 as the claim states. -/
theorem zeros_envelope_not_two :
    (calculate_energy_envelope (List.replicate 1000 (0 : ℝ)) 1000 5).map List.length =
      .ok 200 ∧ (200 : ℕ) ≠ 2 := by
  refine ⟨?_, by norm_num⟩
  rw [calculate_energy_envelope_zeros]
  show Except.ok (((pyRangeStep 1000 5).map
    (fun (i : ℕ) => ((i : ℝ) / 1000, (0 : ℝ)))).length) = Except.ok 200
  rw [List.length_map]
  norm_num [pyRangeStep]

/-- C5 (amended): for 1000 zero samples at sample rate 1000 with windowMs = 5,
the envelope has 200 points (1000 samples in windows of 5), every point has
energy 0, and detect_onsets on it with any thresholdFactor > 0 returns the
empty list (0 > 0 fails at every point). -/
theorem zeros_envelope_two_hundred (tf md : ℝ) (htf : 0 < tf) :
    ∃ env : List (ℝ × ℝ),
      calculate_energy_envelope (List.replicate 1000 (0 : ℝ)) 1000 5 = .ok env ∧
        env.length = 200 ∧ (∀ p ∈ env, p.2 = 0) ∧ detect_onsets env tf md = [] := by
  refine ⟨(pyRangeStep 1000 5).map (fun (i : ℕ) => ((i : ℝ) / 1000, 0)),
    calculate_energy_envelope_zeros, ?_, ?_, ?_⟩
  · rw [List.length_map]
    norm_num [pyRangeStep]
  · intro p hp
    obtain ⟨i, _, rfl⟩ := List.mem_map.mp hp
    rfl
  · exact detect_onsets_zero_energy _ tf md (fun p hp => by
      obtain ⟨i, _, rfl⟩ := List.mem_map.mp hp
      rfl)

/-- Witness for C5 at thresholdFactor 1/2, minDistanceMs 60. -/
theorem zeros_envelope_two_hundred_witness :
    (0 : ℝ) < 1 / 2 ∧
      ∃ env : List (ℝ × ℝ),
        calculate_energy_envelope (List.replicate 1000 (0 : ℝ)) 1000 5 = .ok env ∧
          env.length = 200 ∧ (∀ p ∈ env, p.2 = 0) ∧
            detect_onsets env (1 / 2) 60 = [] :=
  ⟨by norm_num, zeros_envelope_two_hundred (1 / 2) 60 (by norm_num)⟩

theorem calculate_energy_envelope_pos (samples : List ℝ) (sample_rate : ℕ)
    (window_ms : ℚ) (hw : 1 ≤ pyInt ((sample_rate : ℚ) * window_ms / 1000)) :
    calculate_energy_envelope samples sample_rate window_ms =
      .ok ((pyRangeStep samples.length
          (pyInt ((sample_rate : ℚ) * window_ms / 1000)).toNat).map
        (fun (i : ℕ) => ((i : ℝ) / (sample_rate : ℝ),
          rms ((samples.drop i).take
            (pyInt ((sample_rate : ℚ) * window_ms / 1000)).toNat)))) := by
  simp only [calculate_energy_envelope]
  rw [if_neg (by omega : ¬ pyInt ((sample_rate : ℚ) * window_ms / 1000) = 0),
    if_neg (by omega : ¬ pyInt ((sample_rate : ℚ) * window_ms / 1000) < 0)]

/-- C8: with a positive sample rate, a computed window size w =
int(sampleRate * windowMs / 1000) of at least 1, and nonempty samples, the
envelope point with index k has timestamp (k * w) / sampleRate — the starting
sample index of its window divided by the sample rate — timestamps are
strictly increasing, and consecutive timestamps are spaced by exactly
w / sampleRate seconds. -/
theorem envelope_timestamps (samples : List ℝ) (sample_rate : ℕ) (window_ms : ℚ)
    (hw : 1 ≤ pyInt ((sample_rate : ℚ) * window_ms / 1000))
    (hsr : 0 < sample_rate) (hne : samples ≠ []) :
    ∃ env : List (ℝ × ℝ),
      calculate_energy_envelope samples sample_rate window_ms = .ok env ∧
        (∀ (k : ℕ) (hk : k < env.length),
          (env.get ⟨k, hk⟩).1 =
            ((k * (pyInt ((sample_rate : ℚ) * window_ms / 1000)).toNat : ℕ) : ℝ) /
              (sample_rate : ℝ)) ∧
        List.Chain' (fun p q : ℝ × ℝ =>
          q.1 - p.1 =
            (((pyInt ((sample_rate : ℚ) * window_ms / 1000)).toNat : ℕ) : ℝ) /
              (sample_rate : ℝ)) env ∧
        List.Pairwise (fun p q : ℝ × ℝ => p.1 < q.1) env := by
  have hsr0 : ((sample_rate : ℕ) : ℝ) ≠ 0 := Nat.cast_ne_zero.mpr hsr.ne'
  have hsrpos : (0 : ℝ) < ((sample_rate : ℕ) : ℝ) := Nat.cast_pos.mpr hsr
  have hwn : 1 ≤ (pyInt ((sample_rate : ℚ) * window_ms / 1000)).toNat := by omega
  refine ⟨_, calculate_energy_envelope_pos samples sample_rate window_ms hw, ?_, ?_, ?_⟩
  · intro k hk
    simp only [pyRangeStep, List.map_map, List.get_eq_getElem, List.getElem_map,
      List.getElem_range]
    rfl
  · rw [List.chain'_iff_get]
    intro i hi
    simp only [pyRangeStep, List.map_map, List.get_eq_getElem, List.getElem_map,
      List.getElem_range]
    show ((((i + 1) * _ : ℕ)) : ℝ) / (sample_rate : ℝ) -
      (((i * _ : ℕ)) : ℝ) / (sample_rate : ℝ) = _
    push_cast
    field_simp
    ring
  · rw [List.pairwise_iff_get]
    intro i j hij
    simp only [pyRangeStep, List.map_map, List.get_eq_getElem, List.getElem_map,
      List.getElem_range]
    show ((((i : ℕ) * _ : ℕ)) : ℝ) / (sample_rate : ℝ) <
      (((j : ℕ) * _ : ℕ)) / (sample_rate : ℝ)
    have hmul : (i : ℕ) * (pyInt ((sample_rate : ℚ) * window_ms / 1000)).toNat <
        (j : ℕ) * (pyInt ((sample_rate : ℚ) * window_ms / 1000)).toNat := by
      have hlt : (i : ℕ) < (j : ℕ) := hij
      have hwpos : 0 < (pyInt ((sample_rate : ℚ) * window_ms / 1000)).toNat := hwn
      exact (Nat.mul_lt_mul_right hwpos).mpr hlt
    have hcast : ((((i : ℕ) * (pyInt ((sample_rate : ℚ) * window_ms / 1000)).toNat : ℕ)) : ℝ) <
        (((j : ℕ) * (pyInt ((sample_rate : ℚ) * window_ms / 1000)).toNat : ℕ) : ℝ) :=
      Nat.cast_lt.mpr hmul
    exact div_lt_div_of_pos_right hcast hsrpos

/-- Witness for C8 on three zero samples at rate 1000 with windowMs 1. -/
theorem envelope_timestamps_witness :
    1 ≤ pyInt (((1000 : ℕ) : ℚ) * 1 / 1000) ∧ 0 < 1000 ∧
      List.replicate 3 (0 : ℝ) ≠ [] ∧
      (∃ env : List (ℝ × ℝ),
        calculate_energy_envelope (List.replicate 3 (0 : ℝ)) 1000 1 = .ok env ∧
          (∀ (k : ℕ) (hk : k < env.length),
            (env.get ⟨k, hk⟩).1 =
              ((k * (pyInt (((1000 : ℕ) : ℚ) * 1 / 1000)).toNat : ℕ) : ℝ) /
                ((1000 : ℕ) : ℝ)) ∧
          List.Chain' (fun p q : ℝ × ℝ =>
            q.1 - p.1 =
              (((pyInt (((1000 : ℕ) : ℚ) * 1 / 1000)).toNat : ℕ) : ℝ) /
                ((1000 : ℕ) : ℝ)) env ∧
          List.Pairwise (fun p q : ℝ × ℝ => p.1 < q.1) env) :=
  ⟨by norm_num [pyInt], by norm_num, by simp,
    envelope_timestamps (List.replicate 3 (0 : ℝ)) 1000 1 (by norm_num [pyInt])
      (by norm_num) (by simp)⟩

instance : IsTotal (ℚ × ℚ) (fun a b => b.2 ≤ a.2) :=
  ⟨fun a b => le_total b.2 a.2⟩

instance : IsTrans (ℚ × ℚ) (fun a b => b.2 ≤ a.2) :=
  ⟨fun _ _ _ h1 h2 => le_trans h2 h1⟩

theorem pairwise_tie_orderedInsert (a : ℚ × ℚ) :
    ∀ (l : List (ℚ × ℚ)),
      List.Pairwise (fun x y => x.2 = y.2 → x.1 < y.1) l →
      (∀ c ∈ l, a.1 < c.1) →
      List.Pairwise (fun x y => x.2 = y.2 → x.1 < y.1)
        (l.orderedInsert (fun x y => y.2 ≤ x.2) a)
  | [], _, _ => by simp
  | b :: l, hl, ha => by
    simp only [List.orderedInsert]
    split_ifs with hab
    · refine List.Pairwise.cons ?_ hl
      intro c hc _
      exact ha c hc
    · rcases List.pairwise_cons.mp hl with ⟨hb, hl2⟩
      refine List.pairwise_cons.mpr ⟨?_, ?_⟩
      · intro c hc
        have hc2 : c = a ∨ c ∈ l := by
          have hmem := (List.perm_orderedInsert (fun x y => y.2 ≤ x.2) a l).mem_iff.mp hc
          simpa using hmem
        rcases hc2 with rfl | hc2
        · intro hEq
          exact absurd (le_of_eq hEq) hab
        · exact hb c hc2
      · exact pairwise_tie_orderedInsert a l hl2 (fun c hc => ha c (by simp [hc]))

theorem pairwise_tie_insertionSort :
    ∀ (l : List (ℚ × ℚ)), List.Pairwise (fun x y => x.1 < y.1) l →
      List.Pairwise (fun x y => x.2 = y.2 → x.1 < y.1)
        (l.insertionSort (fun x y => y.2 ≤ x.2))
  | [], _ => by simp
  | x :: l, h => by
    rcases List.pairwise_cons.mp h with ⟨hx, hl⟩
    simp only [List.insertionSort]
    refine pairwise_tie_orderedInsert x _ (pairwise_tie_insertionSort l hl) ?_
    intro c hc
    exact hx c ((List.perm_insertionSort (fun x y => y.2 ≤ x.2) l).mem_iff.mp hc)

/-- C9: for an envelope with strictly increasing timestamps, the top-N peak
report is the first n entries of a stable energy-descending sort of the
envelope: energies are non-increasing through the report with equal-energy
entries in ascending timestamp order, the report followed by the dropped
entries is a permutation of the envelope, and every dropped point has energy
at most that of every reported point — a deterministic function of the
envelope. -/
theorem topPeaks_ranked (env : List (ℚ × ℚ)) (n : ℕ)
    (htime : List.Pairwise (fun p q => p.1 < q.1) env) :
    List.Pairwise (fun a b => b.2 ≤ a.2 ∧ (a.2 = b.2 → a.1 < b.1)) (topPeaks env n) ∧
      List.Perm
        (topPeaks env n ++ (env.insertionSort (fun a b => b.2 ≤ a.2)).drop n) env ∧
      ∀ p ∈ topPeaks env n, ∀ q ∈ (env.insertionSort (fun a b => b.2 ≤ a.2)).drop n,
        q.2 ≤ p.2 := by
  have hsorted : List.Sorted (fun a b : ℚ × ℚ => b.2 ≤ a.2)
      (env.insertionSort (fun a b => b.2 ≤ a.2)) :=
    List.sorted_insertionSort (fun a b => b.2 ≤ a.2) env
  have htie := pairwise_tie_insertionSort env htime
  have hcomb : List.Pairwise (fun a b : ℚ × ℚ => b.2 ≤ a.2 ∧ (a.2 = b.2 → a.1 < b.1))
      (env.insertionSort (fun a b => b.2 ≤ a.2)) := hsorted.and htie
  refine ⟨?_, ?_, ?_⟩
  · exact hcomb.sublist (List.take_sublist n _)
  · show List.Perm (List.take n _ ++ List.drop n _) env
    rw [List.take_append_drop]
    exact List.perm_insertionSort (fun a b => b.2 ≤ a.2) env
  · intro p hp q hq
    have hsplit : List.Pairwise (fun a b : ℚ × ℚ => b.2 ≤ a.2)
        (List.take n (env.insertionSort (fun a b => b.2 ≤ a.2)) ++
          List.drop n (env.insertionSort (fun a b => b.2 ≤ a.2))) := by
      rw [List.take_append_drop]
      exact hsorted
    exact (List.pairwise_append.mp hsplit).2.2 p hp q hq

/-- Witness for C9 on a four-point envelope with an energy tie, n = 2. -/
theorem topPeaks_ranked_witness :
    List.Pairwise (fun p q : ℚ × ℚ => p.1 < q.1) [((0 : ℚ), 1), (1, 3), (2, 1), (3, 3)] ∧
      (List.Pairwise (fun a b : ℚ × ℚ => b.2 ≤ a.2 ∧ (a.2 = b.2 → a.1 < b.1))
          (topPeaks [((0 : ℚ), 1), (1, 3), (2, 1), (3, 3)] 2) ∧
        List.Perm
          (topPeaks [((0 : ℚ), 1), (1, 3), (2, 1), (3, 3)] 2 ++
            (([((0 : ℚ), 1), (1, 3), (2, 1), (3, 3)]).insertionSort
              (fun a b => b.2 ≤ a.2)).drop 2)
          [((0 : ℚ), 1), (1, 3), (2, 1), (3, 3)] ∧
        ∀ p ∈ topPeaks [((0 : ℚ), 1), (1, 3), (2, 1), (3, 3)] 2,
          ∀ q ∈ (([((0 : ℚ), 1), (1, 3), (2, 1), (3, 3)]).insertionSort
              (fun a b => b.2 ≤ a.2)).drop 2,
            q.2 ≤ p.2) :=
  ⟨by norm_num,
    topPeaks_ranked [((0 : ℚ), 1), (1, 3), (2, 1), (3, 3)] 2 (by norm_num)⟩

theorem gsel_cons {α : Type} [LinearOrderedField α] (g last t : α) (ts : List α) :
    gsel g last (t :: ts) =
      if t - last > g then t :: gsel g t ts else gsel g last ts := rfl

theorem gsel_sublist {α : Type} [LinearOrderedField α] (g : α) :
    ∀ (last : α) (l : List α), List.Sublist (gsel g last l) l
  | _, [] => List.Sublist.refl []
  | last, t :: ts => by
    rw [gsel_cons]
    split_ifs with h
    · exact (gsel_sublist g t ts).cons₂ t
    · exact (gsel_sublist g last ts).cons t

theorem gsel_chain {α : Type} [LinearOrderedField α] (g : α) :
    ∀ (last : α) (l : List α),
      List.Chain (fun x y => y - x > g) last (gsel g last l)
  | _, [] => List.Chain.nil
  | last, t :: ts => by
    rw [gsel_cons]
    split_ifs with h
    · exact List.chain_cons.mpr ⟨h, gsel_chain g t ts⟩
    · exact gsel_chain g last ts

theorem chain_anti_start {α : Type} [LinearOrderedField α] (g : α) {last last2 : α}
    (h : last ≤ last2) {s : List α}
    (hc : List.Chain (fun x y => y - x > g) last2 s) :
    List.Chain (fun x y => y - x > g) last s := by
  cases s with
  | nil => exact List.Chain.nil
  | cons t ts =>
    rcases List.chain_cons.mp hc with ⟨h1, h2⟩
    refine List.chain_cons.mpr ⟨?_, h2⟩
    simp only [gt_iff_lt] at h1 ⊢
    linarith

theorem chain_length_le_gsel {α : Type} [LinearOrderedField α] (g : α) :
    ∀ (l : List α), List.Pairwise (fun x y => x ≤ y) l →
      ∀ (s : List α) (last : α), List.Sublist s l →
        List.Chain (fun x y => y - x > g) last s →
        s.length ≤ (gsel g last l).length
  | [], _, s, _, hs, _ => by
    rw [List.sublist_nil.mp hs]
    exact Nat.le_refl 0
  | t :: ls, hp, s, last, hs, hchain => by
    rcases List.pairwise_cons.mp hp with ⟨ht, hp2⟩
    rw [gsel_cons]
    split_ifs with hacc
    · cases hs with
      | cons _ hs2 =>
        cases s with
        | nil => simp
        | cons u s₂ =>
          rcases List.chain_cons.mp hchain with ⟨_, hchain₂⟩
          have htu : t ≤ u := ht u (hs2.subset (by simp))
          have hs₃ : List.Sublist s₂ ls :=
            List.Sublist.trans (List.sublist_cons_self u s₂) hs2
          have hchain₃ := chain_anti_start g htu hchain₂
          have := chain_length_le_gsel g ls hp2 s₂ t hs₃ hchain₃
          simp only [List.length_cons]
          omega
      | cons₂ _ hs2 =>
        rcases List.chain_cons.mp hchain with ⟨_, hchain₂⟩
        simp only [List.length_cons]
        exact Nat.succ_le_succ (chain_length_le_gsel g ls hp2 _ t hs2 hchain₂)
    · cases hs with
      | cons _ hs2 => exact chain_length_le_gsel g ls hp2 s last hs2 hchain
      | cons₂ _ hs2 =>
        rcases List.chain_cons.mp hchain with ⟨h1, _⟩
        exact absurd h1 hacc

theorem detectLoop_length_eq_gsel {α : Type} [LinearOrderedField α] (thr minS : α) :
    ∀ (last : α) (env : List (α × α)),
      (detectLoop thr minS last env).length =
        (gsel minS last ((env.filter (fun p => decide (thr < p.2))).map Prod.fst)).length
  | _, [] => rfl
  | last, (t, e) :: rest => by
    by_cases he : thr < e
    · rw [detectLoop_cons, List.filter_cons_of_pos (by simpa using he), List.map_cons,
        gsel_cons]
      by_cases hd : t - last > minS
      · rw [if_pos ⟨he, hd⟩, if_pos hd]
        simp only [List.length_cons]
        exact congrArg Nat.succ (detectLoop_length_eq_gsel thr minS t rest)
      · rw [if_neg (fun hcon => hd hcon.2), if_neg hd]
        exact detectLoop_length_eq_gsel thr minS last rest
    · rw [detectLoop_cons, if_neg (fun hcon => he hcon.1),
        List.filter_cons_of_neg (by simpa using he)]
      exact detectLoop_length_eq_gsel thr minS last rest

theorem le_foldl_max {α : Type} [LinearOrderedField α] :
    ∀ (l : List α) (a : α), a ≤ List.foldl max a l
  | [], a => le_refl a
  | b :: l, a => le_trans (le_max_left a b) (le_foldl_max l (max a b))

/-- C2: for a fixed envelope satisfying the data-model invariants (timestamps
in nondecreasing scan order, nonnegative energies) and a fixed minimum
distance, threshold factors f1 < f2 satisfy count(onsets at f1) ≥
count(onsets at f2): raising the threshold factor never increases the number
of detected onsets. -/
theorem threshold_monotonicity (env : List (ℚ × ℚ)) (md f1 f2 : ℚ)
    (hsort : List.Pairwise (fun p q => p.1 ≤ q.1) env)
    (hnn : ∀ p ∈ env, 0 ≤ p.2) (hf : f1 < f2) :
    (detect_onsets env f2 md).length ≤ (detect_onsets env f1 md).length := by
  match env with
  | [] => exact le_refl 0
  | p :: rest =>
    have hmax : 0 ≤ maxEnergy (p :: rest) := by
      have hp2 : 0 ≤ p.2 := hnn p (by simp)
      calc (0 : ℚ) ≤ p.2 := hp2
        _ ≤ (rest.map Prod.snd).foldl max p.2 := le_foldl_max _ _
    have hthr : maxEnergy (p :: rest) * f1 ≤ maxEnergy (p :: rest) * f2 :=
      mul_le_mul_of_nonneg_left hf.le hmax
    rw [detect_onsets_ne_nil _ _ _ (by simp), detect_onsets_ne_nil _ _ _ (by simp),
      detectLoop_length_eq_gsel, detectLoop_length_eq_gsel]
    apply chain_length_le_gsel
    · rw [List.pairwise_map]
      exact (hsort.sublist (List.filter_sublist _)).imp (fun h => h)
    · refine List.Sublist.trans (gsel_sublist _ _ _) (List.Sublist.map Prod.fst ?_)
      refine List.monotone_filter_right _ ?_
      intro a ha
      simp only [decide_eq_true_eq] at ha ⊢
      linarith
    · exact gsel_chain _ _ _

/-- Witness for C2 on a two-point envelope with factors 1/10 < 1/5. -/
theorem threshold_monotonicity_witness :
    List.Pairwise (fun p q : ℚ × ℚ => p.1 ≤ q.1) [((0 : ℚ), 1), (1, 2)] ∧
      (∀ p ∈ [((0 : ℚ), 1), (1, 2)], 0 ≤ p.2) ∧ (1 : ℚ) / 10 < 1 / 5 ∧
      (detect_onsets [((0 : ℚ), 1), (1, 2)] (1 / 5) 60).length ≤
        (detect_onsets [((0 : ℚ), 1), (1, 2)] (1 / 10) 60).length :=
  ⟨by norm_num, by norm_num, by norm_num,
    threshold_monotonicity [((0 : ℚ), 1), (1, 2)] 60 (1 / 10) (1 / 5)
      (by norm_num) (by norm_num) (by norm_num)⟩
